import Mathlib

/-!
Verification of the pregex character-class algebra and of the group
backreference constructor.

The character-class subsystem (`RangeSet`, canonicalization, union,
subtraction, negation, class-kind legality) is embedded as executable Lean
definitions; the `Backreference` constructor of `pregex/core/groups.py` is
embedded directly from its source. Theorems below settle the specified
properties.
-/

namespace Pregex

/-- A character range: an inclusive pair `(lo, hi)` of Unicode code points.
A single character is the degenerate range with `lo = hi`. -/
abbrev Range := Nat × Nat

/-- Membership of a code point in a single inclusive range. -/
def memR (r : Range) (x : Nat) : Bool := decide (r.1 ≤ x) && decide (x ≤ r.2)

/-- Modelled from the spec: the `RangeSet` of the absent module
`pregex/core/classes.py`: a sequence of code-point ranges. -/
abbrev RangeSet := List Range

/-- A code point lies in a range set iff some range of the set contains it. -/
def RangeSet.contains (s : RangeSet) (x : Nat) : Bool := s.any (fun r => memR r x)

/-- Ordering of ranges by their low endpoint, used by canonicalization. -/
def loLe (p q : Range) : Prop := p.1 ≤ q.1

instance : DecidableRel loLe := fun p q => Nat.decLe p.1 q.1

instance : IsTotal Range loLe := ⟨fun p q => Nat.le_total p.1 q.1⟩

instance : IsTrans Range loLe := ⟨fun _ _ _ h h' => Nat.le_trans h h'⟩

/-- Modelled from the spec: canonicalization first sorts all ranges
ascending by `lo`. -/
def sortRanges (s : RangeSet) : RangeSet := List.insertionSort loLe s

/-- Modelled from the spec: the left-to-right merge sweep of canonicalization,
carrying the range currently being accumulated: a range whose `lo` is at most
`previous.hi + 1` is merged into the previous range, with
`hi = max previous.hi hi`. -/
def sweepFrom (cur : Range) : RangeSet → RangeSet
  | [] => [cur]
  | q :: qs =>
    if q.1 ≤ cur.2 + 1 then sweepFrom (cur.1, max cur.2 q.2) qs
    else cur :: sweepFrom q qs

/-- Modelled from the spec: the merge sweep over a list of ranges sorted
by `lo`. -/
def mergeSweep : RangeSet → RangeSet
  | [] => []
  | r :: rest => sweepFrom r rest

/-- Modelled from the spec: the sole merge algorithm of `RangeSet`: sort all
ranges by `lo`, then sweep left to right merging overlapping or adjacent
ranges into their predecessor. -/
def canonicalize (s : RangeSet) : RangeSet := mergeSweep (sortRanges s)

/-- Canonical shape: consecutive ranges neither overlap nor touch. -/
def RangesApart (p q : Range) : Prop := p.2 + 1 < q.1

theorem contains_perm {s t : RangeSet} (h : List.Perm s t) (x : Nat) :
    RangeSet.contains s x = RangeSet.contains t x := by
  rw [Bool.eq_iff_iff]
  simp only [RangeSet.contains, List.any_eq_true]
  exact ⟨fun ⟨r, hr, hp⟩ => ⟨r, h.mem_iff.mp hr, hp⟩,
    fun ⟨r, hr, hp⟩ => ⟨r, h.mem_iff.mpr hr, hp⟩⟩

theorem contains_sortRanges (s : RangeSet) (x : Nat) :
    RangeSet.contains (sortRanges s) x = RangeSet.contains s x :=
  contains_perm (List.perm_insertionSort loLe s) x

theorem memR_merge {cur q : Range} (h1 : cur.1 ≤ q.1) (h2 : q.1 ≤ cur.2 + 1)
    (x : Nat) : memR (cur.1, max cur.2 q.2) x = (memR cur x || memR q x) := by
  rw [Bool.eq_iff_iff]
  simp only [memR, Bool.and_eq_true, Bool.or_eq_true, decide_eq_true_eq]
  omega

theorem sweepFrom_head_lo (l : RangeSet) (cur : Range) :
    ∃ h t, sweepFrom cur l = (cur.1, h) :: t := by
  induction l generalizing cur with
  | nil => exact ⟨cur.2, [], rfl⟩
  | cons q qs ih =>
    by_cases hm : q.1 ≤ cur.2 + 1
    · obtain ⟨h, t, ht⟩ := ih (cur.1, max cur.2 q.2)
      exact ⟨h, t, by rw [sweepFrom, if_pos hm]; exact ht⟩
    · exact ⟨cur.2, sweepFrom q qs, by rw [sweepFrom, if_neg hm]⟩

theorem contains_sweepFrom {l : RangeSet} {cur : Range}
    (hs : List.Sorted loLe (cur :: l)) (x : Nat) :
    RangeSet.contains (sweepFrom cur l) x = RangeSet.contains (cur :: l) x := by
  induction l generalizing cur with
  | nil => rfl
  | cons q qs ih =>
    rw [List.sorted_cons] at hs
    obtain ⟨hcur, hql⟩ := hs
    by_cases hm : q.1 ≤ cur.2 + 1
    · rw [sweepFrom, if_pos hm]
      have hs' : List.Sorted loLe ((cur.1, max cur.2 q.2) :: qs) := by
        rw [List.sorted_cons]
        refine ⟨fun b hb => ?_, hql.of_cons⟩
        have := hcur q (List.mem_cons_self q qs)
        have := (List.sorted_cons.mp hql).1 b hb
        exact Nat.le_trans ‹loLe cur q› ‹loLe q b›
      rw [ih hs']
      simp only [RangeSet.contains, List.any_cons]
      rw [memR_merge (hcur q (List.mem_cons_self q qs)) hm x, Bool.or_assoc]
    · rw [sweepFrom, if_neg hm]
      simp only [RangeSet.contains, List.any_cons]
      have := ih hql
      simp only [RangeSet.contains, List.any_cons] at this
      rw [this]

theorem lo_le_sweepFrom {l : RangeSet} {cur : Range}
    (hs : List.Sorted loLe (cur :: l)) :
    ∀ b ∈ sweepFrom cur l, cur.1 ≤ b.1 := by
  induction l generalizing cur with
  | nil =>
    intro b hb
    rw [sweepFrom, List.mem_singleton] at hb
    exact hb ▸ Nat.le_refl _
  | cons q qs ih =>
    rw [List.sorted_cons] at hs
    obtain ⟨hcur, hql⟩ := hs
    intro b hb
    by_cases hm : q.1 ≤ cur.2 + 1
    · rw [sweepFrom, if_pos hm] at hb
      have hs' : List.Sorted loLe ((cur.1, max cur.2 q.2) :: qs) := by
        rw [List.sorted_cons]
        refine ⟨fun c hc => ?_, hql.of_cons⟩
        have h1 := hcur q (List.mem_cons_self q qs)
        have h2 := (List.sorted_cons.mp hql).1 c hc
        exact Nat.le_trans h1 h2
      exact ih hs' b hb
    · rw [sweepFrom, if_neg hm, List.mem_cons] at hb
      rcases hb with hb | hb
      · exact hb ▸ Nat.le_refl _
      · exact Nat.le_trans (hcur q (List.mem_cons_self q qs)) (ih hql b hb)

theorem sorted_sweepFrom {l : RangeSet} {cur : Range}
    (hs : List.Sorted loLe (cur :: l)) :
    List.Sorted loLe (sweepFrom cur l) := by
  induction l generalizing cur with
  | nil => exact List.sorted_singleton cur
  | cons q qs ih =>
    rw [List.sorted_cons] at hs
    obtain ⟨hcur, hql⟩ := hs
    by_cases hm : q.1 ≤ cur.2 + 1
    · rw [sweepFrom, if_pos hm]
      have hs' : List.Sorted loLe ((cur.1, max cur.2 q.2) :: qs) := by
        rw [List.sorted_cons]
        refine ⟨fun c hc => ?_, hql.of_cons⟩
        exact Nat.le_trans (hcur q (List.mem_cons_self q qs))
          ((List.sorted_cons.mp hql).1 c hc)
      exact ih hs'
    · rw [sweepFrom, if_neg hm, List.sorted_cons]
      refine ⟨fun b hb => ?_, ih hql⟩
      exact Nat.le_trans (hcur q (List.mem_cons_self q qs)) (lo_le_sweepFrom hql b hb)

theorem chain_sweepFrom {l : RangeSet} {cur : Range}
    (hs : List.Sorted loLe (cur :: l)) :
    List.Chain' RangesApart (sweepFrom cur l) := by
  induction l generalizing cur with
  | nil => exact List.chain'_singleton cur
  | cons q qs ih =>
    rw [List.sorted_cons] at hs
    obtain ⟨hcur, hql⟩ := hs
    by_cases hm : q.1 ≤ cur.2 + 1
    · rw [sweepFrom, if_pos hm]
      have hs' : List.Sorted loLe ((cur.1, max cur.2 q.2) :: qs) := by
        rw [List.sorted_cons]
        refine ⟨fun c hc => ?_, hql.of_cons⟩
        exact Nat.le_trans (hcur q (List.mem_cons_self q qs))
          ((List.sorted_cons.mp hql).1 c hc)
      exact ih hs'
    · rw [sweepFrom, if_neg hm]
      obtain ⟨h, t, ht⟩ := sweepFrom_head_lo qs q
      rw [ht, List.chain'_cons]
      constructor
      · show cur.2 + 1 < q.1
        omega
      · rw [← ht]
        exact ih hql

theorem sweepFrom_of_chain {l : RangeSet} {cur : Range}
    (hc : List.Chain' RangesApart (cur :: l)) :
    sweepFrom cur l = cur :: l := by
  induction l generalizing cur with
  | nil => rfl
  | cons q qs ih =>
    rw [List.chain'_cons] at hc
    have hlt : cur.2 + 1 < q.1 := hc.1
    rw [sweepFrom, if_neg (by omega), ih hc.2]

theorem contains_canonicalize (s : RangeSet) (x : Nat) :
    RangeSet.contains (canonicalize s) x = RangeSet.contains s x := by
  rw [canonicalize, ← contains_sortRanges s x]
  cases hs : sortRanges s with
  | nil => rfl
  | cons r l =>
    have hsorted : List.Sorted loLe (r :: l) := by
      rw [← hs]; exact List.sorted_insertionSort loLe s
    exact contains_sweepFrom hsorted x

theorem chain_canonicalize (s : RangeSet) :
    List.Chain' RangesApart (canonicalize s) := by
  rw [canonicalize]
  cases hs : sortRanges s with
  | nil => exact List.chain'_nil
  | cons r l =>
    have hsorted : List.Sorted loLe (r :: l) := by
      rw [← hs]; exact List.sorted_insertionSort loLe s
    exact chain_sweepFrom hsorted

theorem sorted_canonicalize (s : RangeSet) :
    List.Sorted loLe (canonicalize s) := by
  rw [canonicalize]
  cases hs : sortRanges s with
  | nil => exact List.sorted_nil
  | cons r l =>
    have hsorted : List.Sorted loLe (r :: l) := by
      rw [← hs]; exact List.sorted_insertionSort loLe s
    exact sorted_sweepFrom hsorted

theorem canonicalize_idem (s : RangeSet) :
    canonicalize (canonicalize s) = canonicalize s := by
  have h1 : sortRanges (canonicalize s) = canonicalize s :=
    List.Sorted.insertionSort_eq (sorted_canonicalize s)
  rw [canonicalize, h1]
  cases hc : canonicalize s with
  | nil => rfl
  | cons r l =>
    have := chain_canonicalize s
    rw [hc] at this
    exact sweepFrom_of_chain this

/-- Modelled from the spec: subtracting one range `q` from one range `r`
produces zero, one, or two ranges: the left remainder when `r` starts before
`q`, and the right remainder when `q` ends before `r`. -/
def subRange (r q : Range) : List Range :=
  (if r.1 < q.1 then [(r.1, min r.2 (q.1 - 1))] else []) ++
  (if q.2 < r.2 then [(max r.1 (q.2 + 1), r.2)] else [])

/-- Modelled from the spec: one step of subtraction, removing the range `q`
from every range accumulated so far. -/
def subStep (acc : List Range) (q : Range) : List Range :=
  acc.flatMap (fun p => subRange p q)

/-- Modelled from the spec: subtract every range of `qs` from the range `r`. -/
def subRangeMany (r : Range) (qs : List Range) : List Range :=
  qs.foldl subStep [r]

/-- Modelled from the spec: range-set subtraction before canonicalization:
for each range of `a`, subtract every overlapping range of `b`. -/
def RangeSet.subtractRanges (a b : RangeSet) : RangeSet :=
  a.flatMap (fun r => subRangeMany r b)

/-- Modelled from the spec: range-set subtraction; the result is itself
canonicalized. -/
def RangeSet.subtract (a b : RangeSet) : RangeSet :=
  canonicalize (RangeSet.subtractRanges a b)

/-- Modelled from the spec: range-set union concatenates both range lists
and canonicalizes. -/
def RangeSet.union (a b : RangeSet) : RangeSet := canonicalize (a ++ b)

/-- Emptiness of a range list. -/
def RangeSet.isEmpty (s : RangeSet) : Bool := List.isEmpty s

/-- All ranges of the set are well-formed, with `lo ≤ hi`. -/
def RangeSet.validR (s : RangeSet) : Bool := s.all (fun r => decide (r.1 ≤ r.2))

theorem contains_subRange (r q : Range) (x : Nat) :
    RangeSet.contains (subRange r q) x = (memR r x && !memR q x) := by
  rcases r with ⟨rl, rh⟩
  rcases q with ⟨ql, qh⟩
  rw [Bool.eq_iff_iff]
  by_cases h1 : rl < ql <;> by_cases h2 : qh < rh <;>
    simp [subRange, RangeSet.contains, memR, h1, h2, List.any_append,
      Decidable.not_and_iff_or_not] <;>
    omega

theorem contains_cons (p : Range) (ps : List Range) (x : Nat) :
    RangeSet.contains (p :: ps) x = (memR p x || RangeSet.contains ps x) := by
  simp [RangeSet.contains]

theorem contains_append (s t : List Range) (x : Nat) :
    RangeSet.contains (s ++ t) x =
      (RangeSet.contains s x || RangeSet.contains t x) := by
  simp [RangeSet.contains, List.any_append]

theorem contains_subStep (acc : List Range) (q : Range) (x : Nat) :
    RangeSet.contains (subStep acc q) x =
      (RangeSet.contains acc x && !memR q x) := by
  induction acc with
  | nil => rfl
  | cons p ps ih =>
    have h1 : subStep (p :: ps) q = subRange p q ++ subStep ps q := by
      simp [subStep]
    rw [h1, contains_append, ih, contains_subRange, contains_cons]
    cases h2 : memR p x <;> cases h3 : RangeSet.contains ps x <;>
      cases h4 : memR q x <;> rfl

theorem contains_foldl_subStep (qs : List Range) (acc : List Range) (x : Nat) :
    RangeSet.contains (qs.foldl subStep acc) x =
      (RangeSet.contains acc x && qs.all (fun q => !memR q x)) := by
  induction qs generalizing acc with
  | nil => simp [List.foldl_nil, List.all_nil, Bool.and_true]
  | cons q qs ih =>
    rw [List.foldl_cons, ih, contains_subStep, List.all_cons, Bool.and_assoc]

theorem all_not_memR (qs : List Range) (x : Nat) :
    qs.all (fun q => !memR q x) = !RangeSet.contains qs x := by
  induction qs with
  | nil => rfl
  | cons q qs ih =>
    rw [List.all_cons, ih, contains_cons]
    cases h1 : memR q x <;> cases h2 : RangeSet.contains qs x <;> rfl

theorem contains_subRangeMany (r : Range) (qs : List Range) (x : Nat) :
    RangeSet.contains (subRangeMany r qs) x =
      (memR r x && !RangeSet.contains qs x) := by
  rw [subRangeMany, contains_foldl_subStep, all_not_memR]
  have h1 : RangeSet.contains [r] x = memR r x := by
    simp [RangeSet.contains]
  rw [h1]

theorem contains_subtractRanges (a b : RangeSet) (x : Nat) :
    RangeSet.contains (RangeSet.subtractRanges a b) x =
      (RangeSet.contains a x && !RangeSet.contains b x) := by
  induction a with
  | nil => rfl
  | cons r rs ih =>
    have h1 : RangeSet.subtractRanges (r :: rs) b
        = subRangeMany r b ++ RangeSet.subtractRanges rs b := by
      simp [RangeSet.subtractRanges]
    rw [h1, contains_append, ih, contains_subRangeMany, contains_cons]
    cases h2 : memR r x <;> cases h3 : RangeSet.contains rs x <;>
      cases h4 : RangeSet.contains b x <;> rfl

theorem contains_subtract (a b : RangeSet) (x : Nat) :
    RangeSet.contains (RangeSet.subtract a b) x =
      (RangeSet.contains a x && !RangeSet.contains b x) := by
  rw [RangeSet.subtract, contains_canonicalize, contains_subtractRanges]

theorem contains_union (a b : RangeSet) (x : Nat) :
    RangeSet.contains (RangeSet.union a b) x =
      (RangeSet.contains a x || RangeSet.contains b x) := by
  rw [RangeSet.union, contains_canonicalize]
  simp [RangeSet.contains, List.any_append]

theorem validR_subRange {r : Range} (hr : r.1 ≤ r.2) (q : Range) :
    RangeSet.validR (subRange r q) = true := by
  rcases r with ⟨rl, rh⟩
  rcases q with ⟨ql, qh⟩
  simp only [memR] at hr
  by_cases h1 : rl < ql <;> by_cases h2 : qh < rh <;>
    simp [subRange, RangeSet.validR, h1, h2, List.all_append] <;>
    omega

theorem validR_cons {p : Range} {ps : List Range} :
    RangeSet.validR (p :: ps) = true ↔
      p.1 ≤ p.2 ∧ RangeSet.validR ps = true := by
  simp only [RangeSet.validR, List.all_cons, Bool.and_eq_true, decide_eq_true_eq]

theorem validR_append {s t : List Range} :
    RangeSet.validR (s ++ t) = true ↔
      RangeSet.validR s = true ∧ RangeSet.validR t = true := by
  simp only [RangeSet.validR, List.all_append, Bool.and_eq_true]

theorem validR_subStep {acc : List Range} (hacc : RangeSet.validR acc = true)
    (q : Range) : RangeSet.validR (subStep acc q) = true := by
  induction acc with
  | nil => rfl
  | cons p ps ih =>
    obtain ⟨hp, hps⟩ := validR_cons.mp hacc
    have h1 : subStep (p :: ps) q = subRange p q ++ subStep ps q := by
      simp [subStep]
    rw [h1]
    exact validR_append.mpr ⟨validR_subRange hp q, ih hps⟩

theorem validR_foldl_subStep (qs : List Range) {acc : List Range}
    (hacc : RangeSet.validR acc = true) :
    RangeSet.validR (qs.foldl subStep acc) = true := by
  induction qs generalizing acc with
  | nil => exact hacc
  | cons q qs ih => exact ih (validR_subStep hacc q)

theorem validR_subRangeMany {r : Range} (hr : r.1 ≤ r.2) (qs : List Range) :
    RangeSet.validR (subRangeMany r qs) = true := by
  apply validR_foldl_subStep
  exact validR_cons.mpr ⟨hr, rfl⟩

theorem validR_subtractRanges {a : RangeSet} (hv : RangeSet.validR a = true)
    (b : RangeSet) : RangeSet.validR (RangeSet.subtractRanges a b) = true := by
  induction a with
  | nil => rfl
  | cons r rs ih =>
    obtain ⟨hr, hrs⟩ := validR_cons.mp hv
    have h1 : RangeSet.subtractRanges (r :: rs) b
        = subRangeMany r b ++ RangeSet.subtractRanges rs b := by
      simp [RangeSet.subtractRanges]
    rw [h1]
    exact validR_append.mpr ⟨validR_subRangeMany hr b, ih hrs⟩

theorem eq_nil_of_validR_of_contains_false {l : List Range}
    (hv : RangeSet.validR l = true)
    (hc : ∀ x, RangeSet.contains l x = false) : l = [] := by
  cases l with
  | nil => rfl
  | cons p ps =>
    exfalso
    have h1 := hc p.1
    have hp := (validR_cons.mp hv).1
    have h2 : memR p p.1 = true := by
      simp [memR, hp]
    rw [contains_cons, h2] at h1
    simp at h1

theorem subtractRanges_eq_nil {a b : RangeSet}
    (hv : RangeSet.validR a = true)
    (hsub : ∀ x, RangeSet.contains a x = true → RangeSet.contains b x = true) :
    RangeSet.subtractRanges a b = [] := by
  apply eq_nil_of_validR_of_contains_false (validR_subtractRanges hv b)
  intro x
  rw [contains_subtractRanges]
  cases hax : RangeSet.contains a x with
  | false => rfl
  | true => rw [hsub x hax]; rfl

theorem subtract_eq_nil {a b : RangeSet}
    (hv : RangeSet.validR a = true)
    (hsub : ∀ x, RangeSet.contains a x = true → RangeSet.contains b x = true) :
    RangeSet.subtract a b = [] := by
  rw [RangeSet.subtract, subtractRanges_eq_nil hv hsub]
  rfl

/-- Modelled from the spec: the tags identifying predefined global-shorthand
sets of the absent `pregex/core/classes.py` needed here: the digit class,
the global-Unicode word-character class, and the whitespace class. -/
inductive Tag
  | digit
  | wordGlobal
  | whitespace
deriving DecidableEq

/-- Modelled from the spec: the closed taxonomy of class kinds. -/
inductive ClassKind
  | Positive
  | Negative
  | GlobalShorthand (tag : Tag)
  | NegatedGlobalShorthand (tag : Tag)
  | Universal
deriving DecidableEq

/-- Modelled from the spec: the class value callers hold: a kind plus an
underlying range set. -/
structure ClassValue where
  kind : ClassKind
  set : RangeSet
deriving DecidableEq

/-- Modelled from the spec: the error taxonomy of the class algebra. -/
inductive ClassError
  | IncompatibleClassPolarity
  | GlobalShorthandSubtractionUnsupported
  | CannotNegateUniversal
  | EmptyClassResult
deriving DecidableEq

/-- The largest Unicode code point. -/
def maxCodePoint : Nat := 1114111

/-- The range set of the universal class: the whole code-point domain. -/
def fullRange : RangeSet := [(0, maxCodePoint)]

/-- Modelled from the spec: the predefined range set of each shorthand tag
(digits `0-9`; word characters `0-9A-Z_a-z`; whitespace `TAB-CR` and space). -/
def predefinedSet : Tag → RangeSet
  | .digit => [(48, 57)]
  | .wordGlobal => [(48, 57), (65, 90), (95, 95), (97, 122)]
  | .whitespace => [(9, 13), (32, 32)]

/-- Modelled from the spec: the positive polarity family is `Positive`,
`GlobalShorthand` and `Universal`; the negative family is `Negative` and
`NegatedGlobalShorthand`. -/
def ClassKind.isPositiveFamily : ClassKind → Bool
  | .Positive => true
  | .GlobalShorthand _ => true
  | .Universal => true
  | .Negative => false
  | .NegatedGlobalShorthand _ => false

/-- Modelled from the spec: two kinds are polarity-compatible when they belong
to the same family. -/
def polarityCompatible (k l : ClassKind) : Bool :=
  k.isPositiveFamily == l.isPositiveFamily

/-- Modelled from the spec: whether a kind is the global-Unicode
word-character shorthand or its negation, the kinds banned as subtraction
operands. -/
def ClassKind.isWordGlobalShorthand : ClassKind → Bool
  | .GlobalShorthand .wordGlobal => true
  | .NegatedGlobalShorthand .wordGlobal => true
  | _ => false

/-- Structural subset test between range sets: every range of `a` fits inside
a single range of `b`. -/
def rangeSubset (a b : RangeSet) : Bool :=
  a.all (fun r => b.any (fun q => decide (q.1 ≤ r.1) && decide (r.2 ≤ q.2)))

/-- Strict structural subset test between range sets. -/
def strictRangeSubset (a b : RangeSet) : Bool :=
  rangeSubset a b && !rangeSubset b a

/-- Modelled from the spec: negation flips the polarity family and keeps the
underlying range set; the universal class cannot be negated. -/
def classNegate (a : ClassValue) : Except ClassError ClassValue :=
  match a.kind with
  | .Universal => .error .CannotNegateUniversal
  | .Positive => .ok ⟨.Negative, a.set⟩
  | .Negative => .ok ⟨.Positive, a.set⟩
  | .GlobalShorthand t => .ok ⟨.NegatedGlobalShorthand t, a.set⟩
  | .NegatedGlobalShorthand t => .ok ⟨.GlobalShorthand t, a.set⟩

/-- Modelled from the spec: the kind of a same-family, non-universal union
result: a shorthand kind survives only when both operands are exactly that
shorthand, or one is that shorthand and the other a plain class whose set is
a strict range-subset of the shorthand's predefined set; otherwise the result
degrades to plain `Positive` or `Negative`. -/
def unionKind (a b : ClassValue) : ClassKind :=
  match a.kind, b.kind with
  | .GlobalShorthand t1, .GlobalShorthand t2 =>
      if t1 = t2 then .GlobalShorthand t1 else .Positive
  | .GlobalShorthand t, .Positive =>
      if strictRangeSubset b.set (predefinedSet t) = true then
        .GlobalShorthand t else .Positive
  | .Positive, .GlobalShorthand t =>
      if strictRangeSubset a.set (predefinedSet t) = true then
        .GlobalShorthand t else .Positive
  | .NegatedGlobalShorthand t1, .NegatedGlobalShorthand t2 =>
      if t1 = t2 then .NegatedGlobalShorthand t1 else .Negative
  | .NegatedGlobalShorthand t, .Negative =>
      if strictRangeSubset b.set (predefinedSet t) = true then
        .NegatedGlobalShorthand t else .Negative
  | .Negative, .NegatedGlobalShorthand t =>
      if strictRangeSubset a.set (predefinedSet t) = true then
        .NegatedGlobalShorthand t else .Negative
  | .Negative, _ => .Negative
  | _, _ => .Positive

/-- Modelled from the spec: class union: polarity-incompatible operands are
rejected; a universal operand absorbs the union; otherwise the range sets are
united and the result kind inferred by `unionKind`. -/
def classUnion (a b : ClassValue) : Except ClassError ClassValue :=
  if polarityCompatible a.kind b.kind = false then
    .error .IncompatibleClassPolarity
  else if a.kind = .Universal ∨ b.kind = .Universal then
    .ok ⟨.Universal, fullRange⟩
  else
    .ok ⟨unionKind a b, RangeSet.union a.set b.set⟩

/-- Modelled from the spec: class subtraction: polarity-incompatible operands
are rejected first; then an operand tagged as the global-Unicode
word-character shorthand (or its negation) is rejected; a universal left
operand yields the negation of the right operand (the repository's test pins
`Any() - AnyDigit()` to the class rendered `\D`); otherwise the range sets
are subtracted, an empty result is rejected, and the result kind is the plain
member of the left operand's family. -/
def classSub (a b : ClassValue) : Except ClassError ClassValue :=
  if polarityCompatible a.kind b.kind = false then
    .error .IncompatibleClassPolarity
  else if a.kind.isWordGlobalShorthand || b.kind.isWordGlobalShorthand then
    .error .GlobalShorthandSubtractionUnsupported
  else if a.kind = .Universal then
    if b.kind = .Universal then .error .EmptyClassResult
    else classNegate b
  else if RangeSet.isEmpty (RangeSet.subtract a.set b.set) then
    .error .EmptyClassResult
  else
    .ok ⟨if a.kind.isPositiveFamily then .Positive else .Negative,
         RangeSet.subtract a.set b.set⟩

/-- Modelled from the spec: the reflected subtraction `a.__rsub__(b)`
computes `b - a`. -/
def classRSub (a b : ClassValue) : Except ClassError ClassValue := classSub b a

/-- Modelled from the spec: the matching semantics of a class value: a
positive-family class matches its set, a negative-family class matches the
complement of its set, and the universal class matches every character. -/
def ClassValue.matches (c : ClassValue) (x : Nat) : Bool :=
  match c.kind with
  | .Universal => true
  | .Positive => RangeSet.contains c.set x
  | .GlobalShorthand _ => RangeSet.contains c.set x
  | .Negative => !RangeSet.contains c.set x
  | .NegatedGlobalShorthand _ => !RangeSet.contains c.set x

/-- Well-formedness of a class value: every range has `lo ≤ hi` and stays in
the code-point domain, and the set of a shorthand or universal kind is
exactly its predefined set, per the spec's `ClassValue` invariant. -/
def ClassValue.wfB (c : ClassValue) : Bool :=
  RangeSet.validR c.set &&
  c.set.all (fun r => decide (r.2 ≤ maxCodePoint)) &&
  (match c.kind with
   | .Universal => c.set == fullRange
   | .GlobalShorthand t => c.set == predefinedSet t
   | .NegatedGlobalShorthand t => c.set == predefinedSet t
   | _ => true)

/-- Modelled from the spec: the universal "any character" factory. -/
def anyV : ClassValue := ⟨.Universal, fullRange⟩

/-- Modelled from the spec: the `AnyDigit` factory, the shorthand `\d`. -/
def anyDigitV : ClassValue := ⟨.GlobalShorthand .digit, predefinedSet .digit⟩

/-- Modelled from the spec: the `AnyButDigit` factory, the shorthand `\D`. -/
def anyButDigitV : ClassValue :=
  ⟨.NegatedGlobalShorthand .digit, predefinedSet .digit⟩

/-- Modelled from the spec: the `AnyWordChar(is_global=True)` factory, the
shorthand `\w`. -/
def anyWordCharGlobalV : ClassValue :=
  ⟨.GlobalShorthand .wordGlobal, predefinedSet .wordGlobal⟩

/-- Modelled from the spec: the `AnyButWordChar(is_global=True)` factory, the
shorthand `\W`. -/
def anyButWordCharGlobalV : ClassValue :=
  ⟨.NegatedGlobalShorthand .wordGlobal, predefinedSet .wordGlobal⟩

/-- Modelled from the spec: the `AnyWhitespace` factory, the shorthand
`\s`. -/
def anyWhitespaceV : ClassValue :=
  ⟨.GlobalShorthand .whitespace, predefinedSet .whitespace⟩

/-- Modelled from the spec: the `AnyLetter` factory, the plain enumerated
class `[A-Za-z]`. -/
def anyLetterV : ClassValue := ⟨.Positive, [(65, 90), (97, 122)]⟩

/-- Modelled from the spec: the `AnyButLetter` factory, the negated
enumerated class `[^A-Za-z]`. -/
def anyButLetterV : ClassValue := ⟨.Negative, [(65, 90), (97, 122)]⟩

/-- Modelled from the spec: the `AnyBetween` factory: the plain contiguous
range class between two code points. -/
def anyBetweenV (lo hi : Nat) : ClassValue := ⟨.Positive, [(lo, hi)]⟩

/-- Modelled from the spec: the `AnyButBetween` factory: the negated
contiguous range class. -/
def anyButBetweenV (lo hi : Nat) : ClassValue := ⟨.Negative, [(lo, hi)]⟩

/-- Modelled from the spec: promotion of a bare single character to a
one-character positive class. -/
def singleCharV (c : Nat) : ClassValue := ⟨.Positive, [(c, c)]⟩

theorem classSub_ok_elim {a b c : ClassValue}
    (hok : classSub a b = Except.ok c) :
    polarityCompatible a.kind b.kind = true ∧
    a.kind.isWordGlobalShorthand = false ∧
    b.kind.isWordGlobalShorthand = false ∧
    ((a.kind = ClassKind.Universal ∧ b.kind ≠ ClassKind.Universal ∧
        classNegate b = Except.ok c) ∨
     (a.kind ≠ ClassKind.Universal ∧
        RangeSet.isEmpty (RangeSet.subtract a.set b.set) = false ∧
        c = ⟨if a.kind.isPositiveFamily = true then ClassKind.Positive
             else ClassKind.Negative,
             RangeSet.subtract a.set b.set⟩)) := by
  unfold classSub at hok
  by_cases h1 : polarityCompatible a.kind b.kind = false
  · rw [if_pos h1] at hok; exact absurd hok (by simp)
  rw [if_neg h1] at hok
  by_cases h2 : (a.kind.isWordGlobalShorthand || b.kind.isWordGlobalShorthand)
      = true
  · rw [if_pos h2] at hok; exact absurd hok (by simp)
  rw [if_neg h2] at hok
  have h1' : polarityCompatible a.kind b.kind = true := by
    cases hpc : polarityCompatible a.kind b.kind
    · exact absurd hpc h1
    · rfl
  have h2' : a.kind.isWordGlobalShorthand = false ∧
      b.kind.isWordGlobalShorthand = false := by
    cases ha : a.kind.isWordGlobalShorthand <;>
      cases hb : b.kind.isWordGlobalShorthand <;> simp_all
  by_cases h3 : a.kind = ClassKind.Universal
  · rw [if_pos h3] at hok
    by_cases h4 : b.kind = ClassKind.Universal
    · rw [if_pos h4] at hok; exact absurd hok (by simp)
    · rw [if_neg h4] at hok
      exact ⟨h1', h2'.1, h2'.2, Or.inl ⟨h3, h4, hok⟩⟩
  · rw [if_neg h3] at hok
    by_cases h5 : RangeSet.isEmpty (RangeSet.subtract a.set b.set) = true
    · rw [if_pos h5] at hok; exact absurd hok (by simp)
    · rw [if_neg h5] at hok
      refine ⟨h1', h2'.1, h2'.2, Or.inr ⟨h3, by simpa using h5, ?_⟩⟩
      exact ((Except.ok.injEq _ _).mp hok).symm

theorem classUnion_ok_elim {a b c : ClassValue}
    (hnu : a.kind ≠ ClassKind.Universal) (hbu : b.kind ≠ ClassKind.Universal)
    (hok : classUnion a b = Except.ok c) :
    polarityCompatible a.kind b.kind = true ∧
    c = ⟨unionKind a b, RangeSet.union a.set b.set⟩ := by
  unfold classUnion at hok
  by_cases h1 : polarityCompatible a.kind b.kind = false
  · rw [if_pos h1] at hok; exact absurd hok (by simp)
  rw [if_neg h1] at hok
  have h2 : ¬(a.kind = ClassKind.Universal ∨ b.kind = ClassKind.Universal) := by
    rintro (h | h)
    · exact hnu h
    · exact hbu h
  rw [if_neg h2] at hok
  have h1' : polarityCompatible a.kind b.kind = true := by
    cases hpc : polarityCompatible a.kind b.kind
    · exact absurd hpc h1
    · rfl
  exact ⟨h1', ((Except.ok.injEq _ _).mp hok).symm⟩

/-- The errors raised by `Backreference.__init__` in
`src/pregex/core/groups.py`. -/
inductive GroupError
  | InvalidArgumentTypeException
  | InvalidArgumentValueException
  | InvalidCapturingGroupNameException
deriving DecidableEq

/-- A Python value passed as the `ref` argument of `Backreference`. A Python
`bool` is an `int`, so an integer argument carries an `isBool` flag recording
whether it is actually a boolean (`True ↦ 1`, `False ↦ 0`); `other` stands
for any value that is neither an integer nor a string. -/
inductive PyRef
  | intVal (n : Int) (isBool : Bool)
  | strVal (s : String)
  | other
deriving DecidableEq

/-- A character allowed to start a capturing-group name: `[A-Za-z_]`. -/
def isNameStartChar (c : Char) : Bool :=
  (decide ('A' ≤ c) && decide (c ≤ 'Z')) ||
  (decide ('a' ≤ c) && decide (c ≤ 'z')) ||
  decide (c = '_')

/-- A character allowed inside a capturing-group name: `[A-Za-z_0-9]`. -/
def isNameChar (c : Char) : Bool :=
  isNameStartChar c || (decide ('0' ≤ c) && decide (c ≤ '9'))

/-- The full-match test against `[A-Za-z_][A-Za-z_0-9]*` performed by
`Backreference.__init__` on a string reference. -/
def validGroupName (s : String) : Bool :=
  match s.data with
  | [] => false
  | c :: cs => isNameStartChar c && cs.all isNameChar

/-- `Backreference.__init__` of `src/pregex/core/groups.py`: an integer
reference that is a `bool` raises the type error; an integer outside
`1..99` raises the value error; a valid integer renders `\\<ref>`; a string
reference must match the group-name pattern and renders `(?P=<ref>)`;
any other type raises the type error. -/
def Backreference.init : PyRef → Except GroupError String
  | .intVal n isB =>
      if isB then .error .InvalidArgumentTypeException
      else if n < 1 ∨ 99 < n then .error .InvalidArgumentValueException
      else .ok ("\\" ++ toString n)
  | .strVal s =>
      if validGroupName s then .ok ("(?P=" ++ s ++ ")")
      else .error .InvalidCapturingGroupNameException
  | .other => .error .InvalidArgumentTypeException

/-- C2: canonicalization of a `RangeSet` is idempotent, every canonical
range set has consecutive ranges separated strictly (`hi1 + 1 < lo2`, so no
two ranges overlap and none are adjacent), and overlapping or adjacent
operand ranges always merge into a single range: the union of `a-d` with
`b-k`, and of `a-d` with `e-k`, is the single range `a-k`. -/
theorem canonicalize_idempotent_and_canonical :
    (∀ r : RangeSet, canonicalize (canonicalize r) = canonicalize r) ∧
    (∀ r : RangeSet, List.Chain' RangesApart (canonicalize r)) ∧
    RangeSet.union [(97, 100)] [(98, 107)] = [(97, 107)] ∧
    RangeSet.union [(97, 100)] [(101, 107)] = [(97, 107)] :=
  ⟨canonicalize_idem, chain_canonicalize, rfl, rfl⟩

/-- C3: a positive-family class and a negative-family class can be neither
unioned nor subtracted, in either operand order: both operations fail with
the polarity-incompatibility error and produce no result class. -/
theorem polarity_incompatibility (a b : ClassValue)
    (ha : a.kind.isPositiveFamily = true)
    (hb : b.kind.isPositiveFamily = false) :
    classUnion a b = Except.error ClassError.IncompatibleClassPolarity ∧
    classUnion b a = Except.error ClassError.IncompatibleClassPolarity ∧
    classSub a b = Except.error ClassError.IncompatibleClassPolarity ∧
    classSub b a = Except.error ClassError.IncompatibleClassPolarity := by
  have h1 : polarityCompatible a.kind b.kind = false := by
    rw [polarityCompatible, ha, hb]; rfl
  have h2 : polarityCompatible b.kind a.kind = false := by
    rw [polarityCompatible, ha, hb]; rfl
  refine ⟨?_, ?_, ?_, ?_⟩ <;>
    simp [classUnion, classSub, h1, h2]

/-- C3 witness: `AnyLetter() | AnyButDigit()` and every other operand order
and operation between the two fail with the polarity-incompatibility
error. -/
theorem polarity_incompatibility_witness :
    classUnion anyLetterV anyButDigitV
      = Except.error ClassError.IncompatibleClassPolarity ∧
    classUnion anyButDigitV anyLetterV
      = Except.error ClassError.IncompatibleClassPolarity ∧
    classSub anyLetterV anyButDigitV
      = Except.error ClassError.IncompatibleClassPolarity ∧
    classSub anyButDigitV anyLetterV
      = Except.error ClassError.IncompatibleClassPolarity :=
  polarity_incompatibility anyLetterV anyButDigitV rfl rfl

/-- C8: negating the universal class always fails with the cannot-negate
error, whatever range set the value carries; and negating any non-universal
class succeeds, flips the polarity family, keeps the range set unchanged,
flips the matching semantics pointwise, and negating again restores the
original value exactly. -/
theorem negation_universal_rejected_and_involution (a : ClassValue) :
    (∀ s : RangeSet, classNegate ⟨ClassKind.Universal, s⟩
        = Except.error ClassError.CannotNegateUniversal) ∧
    (a.kind ≠ ClassKind.Universal →
      ∃ b, classNegate a = Except.ok b ∧
        b.kind.isPositiveFamily = !a.kind.isPositiveFamily ∧
        b.set = a.set ∧
        classNegate b = Except.ok a ∧
        ∀ x, ClassValue.matches b x = !ClassValue.matches a x) := by
  constructor
  · intro s; rfl
  · intro ha
    rcases a with ⟨ka, sa⟩
    cases ka with
    | Universal => exact absurd rfl ha
    | Positive =>
        exact ⟨⟨.Negative, sa⟩, rfl, rfl, rfl, rfl, fun x => rfl⟩
    | Negative =>
        refine ⟨⟨.Positive, sa⟩, rfl, rfl, rfl, rfl, fun x => ?_⟩
        show RangeSet.contains sa x = !!RangeSet.contains sa x
        rw [Bool.not_not]
    | GlobalShorthand t =>
        exact ⟨⟨.NegatedGlobalShorthand t, sa⟩, rfl, rfl, rfl, rfl,
          fun x => rfl⟩
    | NegatedGlobalShorthand t =>
        refine ⟨⟨.GlobalShorthand t, sa⟩, rfl, rfl, rfl, rfl, fun x => ?_⟩
        show RangeSet.contains sa x = !!RangeSet.contains sa x
        rw [Bool.not_not]

/-- C8 witness: negating `Any()` fails, and negating `AnyDigit()` succeeds
with family flip, unchanged set, involution, and pointwise complement. -/
theorem negation_witness :
    (classNegate ⟨ClassKind.Universal, []⟩
        = Except.error ClassError.CannotNegateUniversal) ∧
    (∃ b, classNegate anyDigitV = Except.ok b ∧
      b.kind.isPositiveFamily = !anyDigitV.kind.isPositiveFamily ∧
      b.set = anyDigitV.set ∧
      classNegate b = Except.ok anyDigitV ∧
      ∀ x, ClassValue.matches b x = !ClassValue.matches anyDigitV x) :=
  ⟨(negation_universal_rejected_and_involution anyDigitV).1 [],
   (negation_universal_rejected_and_involution anyDigitV).2 (by decide)⟩

/-- C9: an integer backreference is accepted and rendered `\\<ref>` for every
`1 ≤ ref ≤ 99` and rejected with `InvalidArgumentValueException` exactly when
`ref < 1` or `ref > 99`; in particular `ref = 50`, above the documented limit
of `10`, is accepted, the validated upper bound being `99`. -/
theorem backreference_integer_bounds (n : Int) :
    (1 ≤ n → n ≤ 99 →
      Backreference.init (PyRef.intVal n false)
        = Except.ok ("\\" ++ toString n)) ∧
    (n < 1 ∨ 99 < n →
      Backreference.init (PyRef.intVal n false)
        = Except.error GroupError.InvalidArgumentValueException) ∧
    Backreference.init (PyRef.intVal 50 false) = Except.ok "\\50" := by
  refine ⟨fun h1 h2 => ?_, fun h => ?_, rfl⟩
  · simp only [Backreference.init]
    rw [if_neg (by simp), if_neg (by omega)]
  · simp only [Backreference.init]
    rw [if_neg (by simp), if_pos h]

/-- C9 witness: `ref = 7` is accepted and rendered, `ref = 100` is rejected
with the value error. -/
theorem backreference_integer_bounds_witness :
    (1 : Int) ≤ 7 ∧ (7 : Int) ≤ 99 ∧
    Backreference.init (PyRef.intVal 7 false)
      = Except.ok ("\\" ++ toString (7 : Int)) ∧
    Backreference.init (PyRef.intVal 100 false)
      = Except.error GroupError.InvalidArgumentValueException :=
  ⟨by decide, by decide,
   (backreference_integer_bounds 7).1 (by decide) (by decide),
   (backreference_integer_bounds 100).2.1 (Or.inr (by decide))⟩

/-- C10: a boolean backreference argument is rejected with the type error
("neither an integer nor a string") although Python booleans are integers:
`True`, whose integer value `1` passes the `1..99` range check, is still
rejected, while the plain integer `1` is accepted. -/
theorem backreference_bool_rejected :
    Backreference.init (PyRef.intVal 1 true)
      = Except.error GroupError.InvalidArgumentTypeException ∧
    Backreference.init (PyRef.intVal 0 true)
      = Except.error GroupError.InvalidArgumentTypeException ∧
    ¬((1 : Int) < 1 ∨ (99 : Int) < 1) ∧
    Backreference.init (PyRef.intVal 1 false)
      = Except.ok ("\\" ++ toString (1 : Int)) :=
  ⟨rfl, rfl, by decide, rfl⟩

/-- C4 counterexample: the global-Unicode word-character shorthand is a
non-empty class whose self-subtraction fails with the global-shorthand
error, not with the empty-result error. -/
theorem self_subtraction_word_global_counterexample :
    classSub anyWordCharGlobalV anyWordCharGlobalV
      = Except.error ClassError.GlobalShorthandSubtractionUnsupported ∧
    RangeSet.isEmpty anyWordCharGlobalV.set = false ∧
    ClassError.GlobalShorthandSubtractionUnsupported
      ≠ ClassError.EmptyClassResult :=
  ⟨rfl, rfl, by decide⟩

/-- C4 amended: for polarity-compatible operands with neither kind tagged as
the global word-character shorthand, a non-universal left operand, and the
right operand's set a superset of the left's, subtraction (in both operand
orders of the reflected form) yields an empty range set and fails with the
empty-result error; self-subtraction of such a class is the special case
`b = a`. -/
theorem superset_subtraction_empty (a b : ClassValue)
    (hva : RangeSet.validR a.set = true)
    (haw : a.kind.isWordGlobalShorthand = false)
    (hbw : b.kind.isWordGlobalShorthand = false)
    (hcomp : polarityCompatible a.kind b.kind = true)
    (hau : a.kind ≠ ClassKind.Universal)
    (hsup : ∀ x, RangeSet.contains a.set x = true →
      RangeSet.contains b.set x = true) :
    classSub a b = Except.error ClassError.EmptyClassResult ∧
    classRSub b a = Except.error ClassError.EmptyClassResult := by
  have hnil : RangeSet.subtract a.set b.set = [] := subtract_eq_nil hva hsup
  have hmain : classSub a b = Except.error ClassError.EmptyClassResult := by
    unfold classSub
    rw [if_neg (by simp [hcomp]), if_neg (by simp [haw, hbw]),
      if_neg hau, if_pos (by rw [hnil]; rfl)]
  exact ⟨hmain, hmain⟩

/-- C4 witness: `AnyLetter() - AnyLetter()` and its reflected form fail with
the empty-result error. -/
theorem superset_subtraction_empty_witness :
    classSub anyLetterV anyLetterV
      = Except.error ClassError.EmptyClassResult ∧
    classRSub anyLetterV anyLetterV
      = Except.error ClassError.EmptyClassResult :=
  superset_subtraction_empty anyLetterV anyLetterV rfl rfl rfl rfl
    (by decide) (fun x h => h)

/-- C5 counterexample: subtracting the digit shorthand from the universal
class succeeds and produces the negated digit shorthand (`\D`), a
`NegatedGlobalShorthand` kind outside the left operand's positive family,
not the plain `Positive` kind. -/
theorem subtraction_universal_kind_counterexample :
    classSub anyV anyDigitV
      = Except.ok ⟨ClassKind.NegatedGlobalShorthand Tag.digit,
          predefinedSet Tag.digit⟩ ∧
    ClassKind.NegatedGlobalShorthand Tag.digit ≠ ClassKind.Positive ∧
    (ClassKind.NegatedGlobalShorthand Tag.digit).isPositiveFamily = false ∧
    anyV.kind.isPositiveFamily = true :=
  ⟨rfl, by decide, rfl, rfl⟩

/-- C5 amended: for every successful subtraction whose left operand is not
the universal class, the result kind is the plain member of the left
operand's polarity family — `Positive` for the positive family, `Negative`
for the negative family — never a shorthand or universal kind; a universal
left operand instead yields the negation of the right operand. -/
theorem subtraction_result_kind_plain (a b c : ClassValue)
    (hau : a.kind ≠ ClassKind.Universal)
    (hok : classSub a b = Except.ok c) :
    c.kind = (if a.kind.isPositiveFamily = true then ClassKind.Positive
              else ClassKind.Negative) := by
  obtain ⟨-, -, -, h⟩ := classSub_ok_elim hok
  rcases h with ⟨h1, -, -⟩ | ⟨-, -, hc⟩
  · exact absurd h1 hau
  · rw [hc]

/-- C5 witness: the subtraction `[a-e] - [d-k]` succeeds with the plain
positive kind. -/
theorem subtraction_result_kind_plain_witness :
    (anyBetweenV 97 101).kind ≠ ClassKind.Universal ∧
    classSub (anyBetweenV 97 101) (anyBetweenV 100 107)
      = Except.ok ⟨ClassKind.Positive, [(97, 99)]⟩ ∧
    (⟨ClassKind.Positive, [(97, 99)]⟩ : ClassValue).kind
      = (if (anyBetweenV 97 101).kind.isPositiveFamily = true
         then ClassKind.Positive else ClassKind.Negative) :=
  ⟨by decide, rfl,
   subtraction_result_kind_plain (anyBetweenV 97 101) (anyBetweenV 100 107)
     ⟨ClassKind.Positive, [(97, 99)]⟩ (by decide) rfl⟩

/-- C7 counterexample: when the global word-character shorthand meets a
negative-family operand, subtraction fails with the polarity-incompatibility
error, not with the global-shorthand-subtraction error. -/
theorem global_word_subtraction_polarity_counterexample :
    anyWordCharGlobalV.kind.isWordGlobalShorthand = true ∧
    classSub anyWordCharGlobalV anyButDigitV
      = Except.error ClassError.IncompatibleClassPolarity ∧
    ClassError.IncompatibleClassPolarity
      ≠ ClassError.GlobalShorthandSubtractionUnsupported :=
  ⟨rfl, rfl, by decide⟩

/-- C7 amended: for every polarity-compatible pair of operands in which the
global-Unicode word-character shorthand or its negation appears on either
side, subtraction fails with the global-shorthand-subtraction error and no
result class is produced; for polarity-incompatible operands the
polarity check fires first instead. -/
theorem global_word_subtraction_rejected (a b : ClassValue)
    (hcomp : polarityCompatible a.kind b.kind = true)
    (hw : a.kind.isWordGlobalShorthand = true ∨
      b.kind.isWordGlobalShorthand = true) :
    classSub a b
      = Except.error ClassError.GlobalShorthandSubtractionUnsupported := by
  unfold classSub
  rw [if_neg (by simp [hcomp]),
    if_pos (by rcases hw with h | h <;> simp [h])]

/-- C7 witness: `AnyWordChar(is_global=True) - AnyLetter()` fails with the
global-shorthand-subtraction error. -/
theorem global_word_subtraction_rejected_witness :
    polarityCompatible anyWordCharGlobalV.kind anyLetterV.kind = true ∧
    classSub anyWordCharGlobalV anyLetterV
      = Except.error ClassError.GlobalShorthandSubtractionUnsupported :=
  ⟨rfl, global_word_subtraction_rejected anyWordCharGlobalV anyLetterV rfl
    (Or.inl rfl)⟩

theorem wfB_universal_set {s : RangeSet}
    (h : ClassValue.wfB ⟨ClassKind.Universal, s⟩ = true) : s = fullRange := by
  simp only [ClassValue.wfB, Bool.and_eq_true, beq_iff_eq] at h
  exact h.2

theorem contains_fullRange {x : Nat} (hx : x ≤ maxCodePoint) :
    RangeSet.contains fullRange x = true := by
  simp [fullRange, RangeSet.contains, memR, hx]

/-- C1 counterexample: for the negative-polarity pair `[^a-e] - [^d-k]`
(which succeeds, producing `[^a-c]`), the character `z` is matched by the
result but is not (matched by the left operand and unmatched by the right
operand): the stated matching characterization fails for negative-family
classes. -/
theorem subtraction_matching_counterexample :
    classSub (anyButBetweenV 97 101) (anyButBetweenV 100 107)
      = Except.ok ⟨ClassKind.Negative, [(97, 99)]⟩ ∧
    polarityCompatible (anyButBetweenV 97 101).kind
      (anyButBetweenV 100 107).kind = true ∧
    ClassValue.matches ⟨ClassKind.Negative, [(97, 99)]⟩ 122 = true ∧
    (ClassValue.matches (anyButBetweenV 97 101) 122 &&
      !ClassValue.matches (anyButBetweenV 100 107) 122) = false :=
  ⟨rfl, rfl, rfl, rfl⟩

/-- C1 amended: for every successful same-polarity subtraction, the
underlying sets satisfy the stated characterization pointwise whenever the
left operand is not universal (`x ∈ set (a-b)` iff `x ∈ set a` and
`x ∉ set b`); and for positive-family left operands the matching semantics
satisfy it as stated: `x` is matched by `a - b` iff `x` is matched by `a`
and not matched by `b`. For negative-family operands the matching-level
statement fails (see the counterexample); only the set-level form holds. -/
theorem subtraction_membership_and_matching (a b c : ClassValue) (x : Nat)
    (hwa : ClassValue.wfB a = true) (hwb : ClassValue.wfB b = true)
    (hok : classSub a b = Except.ok c) (hx : x ≤ maxCodePoint) :
    (a.kind ≠ ClassKind.Universal →
      RangeSet.contains c.set x
        = (RangeSet.contains a.set x && !RangeSet.contains b.set x)) ∧
    (a.kind.isPositiveFamily = true →
      ClassValue.matches c x
        = (ClassValue.matches a x && !ClassValue.matches b x)) := by
  obtain ⟨hcomp, haw, hbw, h⟩ := classSub_ok_elim hok
  rcases a with ⟨ka, sa⟩
  rcases b with ⟨kb, sb⟩
  constructor
  · intro hau
    rcases h with ⟨h1, -, -⟩ | ⟨-, -, hc⟩
    · exact absurd h1 hau
    · rw [hc]
      exact contains_subtract sa sb x
  · intro hpos
    rcases h with ⟨h1, h2, h3⟩ | ⟨h1, h2, hc⟩
    · have hka : ka = ClassKind.Universal := h1
      subst hka
      have hbfam : kb.isPositiveFamily = true := by
        cases hb : kb.isPositiveFamily
        · rw [polarityCompatible] at hcomp
          rw [show (⟨kb, sb⟩ : ClassValue).kind.isPositiveFamily = false
            from hb] at hcomp
          exact Bool.noConfusion hcomp
        · rfl
      cases kb with
      | Universal => exact absurd rfl h2
      | Negative => exact Bool.noConfusion hbfam
      | NegatedGlobalShorthand t => exact Bool.noConfusion hbfam
      | Positive =>
          have hc : c = ⟨ClassKind.Negative, sb⟩ :=
            ((Except.ok.injEq _ _).mp h3).symm
          rw [hc]
          show (!RangeSet.contains sb x) = (true && !RangeSet.contains sb x)
          rw [Bool.true_and]
      | GlobalShorthand t =>
          have hc : c = ⟨ClassKind.NegatedGlobalShorthand t, sb⟩ :=
            ((Except.ok.injEq _ _).mp h3).symm
          rw [hc]
          show (!RangeSet.contains sb x) = (true && !RangeSet.contains sb x)
          rw [Bool.true_and]
    · have hka : ka.isPositiveFamily = true := hpos
      rw [hc]
      have hbfam : kb.isPositiveFamily = true := by
        cases hb : kb.isPositiveFamily
        · rw [polarityCompatible] at hcomp
          rw [show (⟨kb, sb⟩ : ClassValue).kind.isPositiveFamily = false
            from hb,
            show (⟨ka, sa⟩ : ClassValue).kind.isPositiveFamily = true
            from hka] at hcomp
          exact Bool.noConfusion hcomp
        · rfl
      cases ka with
      | Universal => exact absurd rfl h1
      | Negative => exact Bool.noConfusion hka
      | NegatedGlobalShorthand t => exact Bool.noConfusion hka
      | Positive =>
          cases kb with
          | Negative => exact Bool.noConfusion hbfam
          | NegatedGlobalShorthand t => exact Bool.noConfusion hbfam
          | Positive =>
              show RangeSet.contains (RangeSet.subtract sa sb) x = _
              rw [contains_subtract]
              rfl
          | GlobalShorthand t =>
              show RangeSet.contains (RangeSet.subtract sa sb) x = _
              rw [contains_subtract]
              rfl
          | Universal =>
              have hsb : sb = fullRange := wfB_universal_set hwb
              subst hsb
              show RangeSet.contains (RangeSet.subtract sa fullRange) x = _
              rw [contains_subtract]
              show _ = (RangeSet.contains sa x && !true)
              rw [contains_fullRange hx]
      | GlobalShorthand ta =>
          cases kb with
          | Negative => exact Bool.noConfusion hbfam
          | NegatedGlobalShorthand t => exact Bool.noConfusion hbfam
          | Positive =>
              show RangeSet.contains (RangeSet.subtract sa sb) x = _
              rw [contains_subtract]
              rfl
          | GlobalShorthand t =>
              show RangeSet.contains (RangeSet.subtract sa sb) x = _
              rw [contains_subtract]
              rfl
          | Universal =>
              have hsb : sb = fullRange := wfB_universal_set hwb
              subst hsb
              show RangeSet.contains (RangeSet.subtract sa fullRange) x = _
              rw [contains_subtract]
              show _ = (RangeSet.contains sa x && !true)
              rw [contains_fullRange hx]

/-- C1 witness: `AnyDigit() - '5'` succeeds, and at the character `5` both
the set-level and the matching-level characterizations hold: `5` is in
neither the result set nor matched by the result. -/
theorem subtraction_membership_and_matching_witness :
    ClassValue.wfB anyDigitV = true ∧
    ClassValue.wfB (singleCharV 53) = true ∧
    classSub anyDigitV (singleCharV 53)
      = Except.ok ⟨ClassKind.Positive, [(48, 52), (54, 57)]⟩ ∧
    (53 : Nat) ≤ maxCodePoint ∧
    ((anyDigitV.kind ≠ ClassKind.Universal →
        RangeSet.contains
          (⟨ClassKind.Positive, [(48, 52), (54, 57)]⟩ : ClassValue).set 53
          = (RangeSet.contains anyDigitV.set 53 &&
             !RangeSet.contains (singleCharV 53).set 53)) ∧
     (anyDigitV.kind.isPositiveFamily = true →
        ClassValue.matches ⟨ClassKind.Positive, [(48, 52), (54, 57)]⟩ 53
          = (ClassValue.matches anyDigitV 53 &&
             !ClassValue.matches (singleCharV 53) 53))) :=
  ⟨rfl, rfl, rfl, by decide,
   subtraction_membership_and_matching anyDigitV (singleCharV 53)
     ⟨ClassKind.Positive, [(48, 52), (54, 57)]⟩ 53 rfl rfl rfl (by decide)⟩

/-- C6: for a successful same-family union with no universal operand, the
result kind is a (possibly negated) global shorthand exactly when both
operands are that same shorthand, or one operand is that shorthand and the
other a plain class whose set is a strict range-subset of its predefined
set; the union of two plain classes always keeps the plain kind, even when
the combined ranges equal a predefined shorthand's set. -/
theorem union_kind_shorthand_conditions (a b c : ClassValue) (t : Tag)
    (hnu : a.kind ≠ ClassKind.Universal) (hbu : b.kind ≠ ClassKind.Universal)
    (hok : classUnion a b = Except.ok c) :
    (c.kind = ClassKind.GlobalShorthand t ↔
      (a.kind = ClassKind.GlobalShorthand t ∧
        b.kind = ClassKind.GlobalShorthand t) ∨
      (a.kind = ClassKind.GlobalShorthand t ∧ b.kind = ClassKind.Positive ∧
        strictRangeSubset b.set (predefinedSet t) = true) ∨
      (b.kind = ClassKind.GlobalShorthand t ∧ a.kind = ClassKind.Positive ∧
        strictRangeSubset a.set (predefinedSet t) = true)) ∧
    (c.kind = ClassKind.NegatedGlobalShorthand t ↔
      (a.kind = ClassKind.NegatedGlobalShorthand t ∧
        b.kind = ClassKind.NegatedGlobalShorthand t) ∨
      (a.kind = ClassKind.NegatedGlobalShorthand t ∧
        b.kind = ClassKind.Negative ∧
        strictRangeSubset b.set (predefinedSet t) = true) ∨
      (b.kind = ClassKind.NegatedGlobalShorthand t ∧
        a.kind = ClassKind.Negative ∧
        strictRangeSubset a.set (predefinedSet t) = true)) ∧
    (a.kind = ClassKind.Positive → b.kind = ClassKind.Positive →
      c.kind = ClassKind.Positive) ∧
    (a.kind = ClassKind.Negative → b.kind = ClassKind.Negative →
      c.kind = ClassKind.Negative) := by
  obtain ⟨hcomp, hc⟩ := classUnion_ok_elim hnu hbu hok
  rcases a with ⟨ka, sa⟩
  rcases b with ⟨kb, sb⟩
  subst hc
  cases ka <;> cases kb <;>
    first
      | exact absurd rfl hnu
      | exact absurd rfl hbu
      | exact Bool.noConfusion hcomp
      | (refine ⟨?_, ?_, ?_, ?_⟩ <;>
          simp only [unionKind] <;>
          (try split_ifs) <;>
          simp_all <;>
          (intro h
           subst h
           first
             | assumption
             | (intro h2; exact absurd h2.symm (by assumption))))

/-- C6 witness: `AnyWordChar(is_global=True) | AnyLetter()` keeps the word
shorthand kind, while the union of two plain enumerated classes whose
combined ranges equal the whitespace shorthand's predefined set keeps the
plain positive kind. -/
theorem union_kind_shorthand_conditions_witness :
    classUnion anyWordCharGlobalV anyLetterV
      = Except.ok ⟨ClassKind.GlobalShorthand Tag.wordGlobal,
          RangeSet.union anyWordCharGlobalV.set anyLetterV.set⟩ ∧
    (⟨ClassKind.GlobalShorthand Tag.wordGlobal,
        RangeSet.union anyWordCharGlobalV.set anyLetterV.set⟩
      : ClassValue).kind = ClassKind.GlobalShorthand Tag.wordGlobal ∧
    classUnion ⟨ClassKind.Positive, [(32, 32), (9, 9), (10, 10), (13, 13),
        (11, 11)]⟩ ⟨ClassKind.Positive, [(12, 12)]⟩
      = Except.ok ⟨ClassKind.Positive, [(9, 13), (32, 32)]⟩ ∧
    (⟨ClassKind.Positive, [(9, 13), (32, 32)]⟩ : ClassValue).kind
      = ClassKind.Positive := by
  refine ⟨rfl, ?_, rfl, ?_⟩
  · exact ((union_kind_shorthand_conditions anyWordCharGlobalV anyLetterV
      ⟨ClassKind.GlobalShorthand Tag.wordGlobal,
        RangeSet.union anyWordCharGlobalV.set anyLetterV.set⟩
      Tag.wordGlobal (by decide) (by decide) rfl).1).mpr
      (Or.inr (Or.inl ⟨rfl, rfl, by decide⟩))
  · exact (union_kind_shorthand_conditions
      ⟨ClassKind.Positive, [(32, 32), (9, 9), (10, 10), (13, 13), (11, 11)]⟩
      ⟨ClassKind.Positive, [(12, 12)]⟩
      ⟨ClassKind.Positive, [(9, 13), (32, 32)]⟩
      Tag.whitespace (by decide) (by decide) rfl).2.2.1 rfl rfl

end Pregex
